import Mathlib

/-!
# Verification of the `crawler_to_md.py` page-to-markdown pipeline

This file is a shallow embedding, in Lean 4, of the single-file program
`crawler_to_md.py` (a web page → markdown converter that localizes images),
together with theorems settling a list of claims about its behaviour.

Modelling conventions:
* Python strings are Lean `String`s; all scanning/splitting is done on the
  underlying `List Char`, mirroring Python's per-character semantics.
* The filesystem and the network log are an explicit state `St`; the HTTP
  transport (`requests.get`) is an oracle parameter `HttpOracle`, with the
  restriction — faithful to `requests` — that only `http://`/`https://` URLs
  reach the network (any other scheme raises `InvalidSchema` before any
  network activity).
* Python exceptions are `Except` values; a `try/except` block is a `match`
  on the `Except`.
* `hashlib.md5(...).hexdigest()` is implemented in full (`md5Hex`), with
  arithmetic on `Nat` reduced mod 2^32.
* `urllib.parse.urlparse`/`urljoin` and `os.path` (POSIX flavour) are
  implemented following the CPython algorithms; security-fix control-character
  stripping and IPv6-bracket validation of recent CPython are omitted (no
  claim involves such URLs).
* The HTML tree (`BeautifulSoup`) is an explicit inductive `Node`; parsing
  (`BeautifulSoup(bytes)`), serialization (`str(tag)`) and markdown conversion
  (`markdownify.markdownify`) are external capabilities, passed as oracle
  parameters, exactly as the specification scopes them out.
-/

set_option maxRecDepth 8000

namespace Crawler

/-! ## Basic character and list utilities -/

/-- Character-list version of Python `s.startswith(pre)`. -/
def startsWithChars : List Char → List Char → Bool
  | [], _ => true
  | _ :: _, [] => false
  | p :: ps, c :: cs => p = c && startsWithChars ps cs

/-- String version of Python `s.startswith(pre)`. -/
def startsWithStr (s pre : String) : Bool :=
  startsWithChars pre.data s.data

/-- Python `s.endswith(suf)`, as a decidable suffix test on the char lists. -/
def endsWithStr (s suf : String) : Bool :=
  decide (List.IsSuffix suf.data s.data)

/-- Index of the first occurrence of `c` (Python `s.find(c)` when present). -/
def findCharIdx (c : Char) : List Char → Option Nat
  | [] => none
  | x :: xs =>
    if x = c then some 0
    else (findCharIdx c xs).map (· + 1)

/-- Index of the last occurrence of `c` (Python `s.rfind(c)` when present). -/
def rfindCharIdx (c : Char) (l : List Char) : Option Nat :=
  (findCharIdx c l.reverse).map (fun i => l.length - 1 - i)

/-- Python `c in s` membership of a character in a string's characters. -/
def containsChar (l : List Char) (c : Char) : Bool :=
  l.any (· = c)

/-- Split a character list at every occurrence of `c` (Python `s.split(c)`). -/
def splitOnChar (c : Char) : List Char → List (List Char)
  | [] => [[]]
  | x :: xs =>
    let rest := splitOnChar c xs
    if x = c then [] :: rest
    else match rest with
      | [] => [[x]]
      | r :: rs => (x :: r) :: rs

/-- ASCII lower-casing of one character (the fragment of Python `str.lower`
relevant here; the claims only involve ASCII URLs and file names). -/
def pyLowerChar (c : Char) : Char :=
  if 'A' ≤ c ∧ c ≤ 'Z' then Char.ofNat (c.toNat + 32) else c

/-- ASCII fragment of Python `str.lower`. -/
def pyLowerStr (s : String) : String :=
  String.mk (s.data.map pyLowerChar)

/-- ASCII alphabetic test (Python `str.isalpha` on ASCII input). -/
def isAsciiAlpha (c : Char) : Bool :=
  ('a' ≤ c && c ≤ 'z') || ('A' ≤ c && c ≤ 'Z')

/-- ASCII digit test. -/
def isAsciiDigit (c : Char) : Bool :=
  '0' ≤ c && c ≤ '9'

/-! ## MD5 (`hashlib.md5(url.encode()).hexdigest()`)

A complete implementation of MD5 over byte lists, bytes and 32-bit words
being `Nat`s reduced mod `2^32` where overflow matters. -/

/-- Reduce modulo `2^32`. -/
def u32 (n : Nat) : Nat := n % 4294967296

/-- Bitwise complement within 32 bits (the operand is `< 2^32`). -/
def not32 (x : Nat) : Nat := 4294967295 - u32 x

/-- Left-rotation of a 32-bit word by `n` bits (`0 < n < 32`). -/
def rotl32 (x n : Nat) : Nat :=
  u32 (u32 x * 2 ^ n) + u32 x / 2 ^ (32 - n)

/-- UTF-8 encoding of one character (Python `str.encode()`). -/
def utf8Char (c : Char) : List Nat :=
  let n := c.toNat
  if n < 128 then [n]
  else if n < 2048 then [192 + n / 64, 128 + n % 64]
  else if n < 65536 then [224 + n / 4096, 128 + n / 64 % 64, 128 + n % 64]
  else [240 + n / 262144, 128 + n / 4096 % 64, 128 + n / 64 % 64, 128 + n % 64]

/-- UTF-8 encoding of a string as a byte list. -/
def utf8Encode (s : String) : List Nat :=
  (s.data.map utf8Char).flatten

/-- MD5 per-round constants `T[i] = floor(2^32 * |sin(i+1)|)`. -/
def md5K : List Nat :=
  [0xd76aa478, 0xe8c7b756, 0x242070db, 0xc1bdceee,
   0xf57c0faf, 0x4787c62a, 0xa8304613, 0xfd469501,
   0x698098d8, 0x8b44f7af, 0xffff5bb1, 0x895cd7be,
   0x6b901122, 0xfd987193, 0xa679438e, 0x49b40821,
   0xf61e2562, 0xc040b340, 0x265e5a51, 0xe9b6c7aa,
   0xd62f105d, 0x02441453, 0xd8a1e681, 0xe7d3fbc8,
   0x21e1cde6, 0xc33707d6, 0xf4d50d87, 0x455a14ed,
   0xa9e3e905, 0xfcefa3f8, 0x676f02d9, 0x8d2a4c8a,
   0xfffa3942, 0x8771f681, 0x6d9d6122, 0xfde5380c,
   0xa4beea44, 0x4bdecfa9, 0xf6bb4b60, 0xbebfbc70,
   0x289b7ec6, 0xeaa127fa, 0xd4ef3085, 0x04881d05,
   0xd9d4d039, 0xe6db99e5, 0x1fa27cf8, 0xc4ac5665,
   0xf4292244, 0x432aff97, 0xab9423a7, 0xfc93a039,
   0x655b59c3, 0x8f0ccc92, 0xffeff47d, 0x85845dd1,
   0x6fa87e4f, 0xfe2ce6e0, 0xa3014314, 0x4e0811a1,
   0xf7537e82, 0xbd3af235, 0x2ad7d2bb, 0xeb86d391]

/-- MD5 per-round left-rotation amounts. -/
def md5S : List Nat :=
  [7, 12, 17, 22, 7, 12, 17, 22, 7, 12, 17, 22, 7, 12, 17, 22,
   5, 9, 14, 20, 5, 9, 14, 20, 5, 9, 14, 20, 5, 9, 14, 20,
   4, 11, 16, 23, 4, 11, 16, 23, 4, 11, 16, 23, 4, 11, 16, 23,
   6, 10, 15, 21, 6, 10, 15, 21, 6, 10, 15, 21, 6, 10, 15, 21]

/-- One MD5 round: `i` is the round index, `m` the 16 message words. -/
def md5Round (m : List Nat) (st : Nat × Nat × Nat × Nat) (i : Nat) :
    Nat × Nat × Nat × Nat :=
  let (a, b, c, d) := st
  let (f, g) :=
    if i < 16 then ((b &&& c) ||| (not32 b &&& d), i)
    else if i < 32 then ((d &&& b) ||| (not32 d &&& c), (5 * i + 1) % 16)
    else if i < 48 then (b ^^^ c ^^^ d, (3 * i + 5) % 16)
    else (c ^^^ (b ||| not32 d), (7 * i) % 16)
  let tmp := u32 (a + f + md5K.getD i 0 + m.getD g 0)
  (d, u32 (b + rotl32 tmp (md5S.getD i 0)), b, c)

/-- Decode 16 little-endian 32-bit words from a 64-byte block. -/
def md5Words (block : List Nat) : List Nat :=
  (List.range 16).map fun j =>
    block.getD (4 * j) 0 + 256 * block.getD (4 * j + 1) 0 +
      65536 * block.getD (4 * j + 2) 0 + 16777216 * block.getD (4 * j + 3) 0

/-- Process one 64-byte block. -/
def md5Block (st : Nat × Nat × Nat × Nat) (block : List Nat) :
    Nat × Nat × Nat × Nat :=
  let m := md5Words block
  let (a, b, c, d) := (List.range 64).foldl (md5Round m) st
  let (a0, b0, c0, d0) := st
  (u32 (a0 + a), u32 (b0 + b), u32 (c0 + c), u32 (d0 + d))

/-- MD5 padding: `0x80`, zeros to 56 mod 64, then the 64-bit little-endian
bit length of the original message. -/
def md5Pad (msg : List Nat) : List Nat :=
  let bitLen := (8 * msg.length) % 2 ^ 64
  let padZeros := (119 - msg.length % 64) % 64
  msg ++ [128] ++ List.replicate padZeros 0 ++
    (List.range 8).map (fun j => bitLen / 2 ^ (8 * j) % 256)

/-- Split a padded message into 64-byte blocks. -/
def chunks64 : List Nat → List (List Nat)
  | [] => []
  | x :: xs => (x :: xs).take 64 :: chunks64 ((x :: xs).drop 64)
  termination_by l => l.length
  decreasing_by
    simp only [List.length_drop, List.length_cons]
    omega

/-- Little-endian bytes of a 32-bit word. -/
def wordBytes (w : Nat) : List Nat :=
  [w % 256, w / 256 % 256, w / 65536 % 256, w / 16777216 % 256]

/-- Lower-case hexadecimal digit. -/
def hexDigit (n : Nat) : Char :=
  if n < 10 then Char.ofNat (48 + n) else Char.ofNat (87 + n)

/-- Two-digit lower-case hex of a byte. -/
def byteHex (b : Nat) : List Char :=
  [hexDigit (b / 16), hexDigit (b % 16)]

/-- MD5 digest of a byte list, as a 32-character lower-case hex string. -/
def md5HexBytes (msg : List Nat) : String :=
  let (a, b, c, d) :=
    (chunks64 (md5Pad msg)).foldl md5Block
      (0x67452301, 0xefcdab89, 0x98badcfe, 0x10325476)
  String.mk (((wordBytes a ++ wordBytes b ++ wordBytes c ++ wordBytes d).map
    byteHex).flatten)

/-- Python `hashlib.md5(s.encode()).hexdigest()`. -/
def md5Hex (s : String) : String :=
  md5HexBytes (utf8Encode s)

/-! ## `urllib.parse`: `urlparse`, `urljoin`

Transliterated from CPython's `urllib/parse.py` (`urlsplit`, `_splitparams`,
`urlparse`, `urlunsplit`, `urlunparse`, `urljoin`). -/

/-- Members of CPython's `scheme_chars`. -/
def isSchemeChar (c : Char) : Bool :=
  isAsciiAlpha c || isAsciiDigit c || c = '+' || c = '-' || c = '.'

/-- CPython `uses_relative`. -/
def uses_relative : List String :=
  ["", "ftp", "http", "gopher", "nntp", "imap", "wais", "file", "https",
   "shttp", "mms", "prospero", "rtsp", "rtspu", "sftp", "svn", "svn+ssh",
   "ws", "wss"]

/-- CPython `uses_netloc`. -/
def uses_netloc : List String :=
  ["", "ftp", "http", "gopher", "nntp", "telnet", "imap", "wais", "file",
   "mms", "https", "shttp", "snews", "prospero", "rtsp", "rtspu", "rsync",
   "svn", "svn+ssh", "sftp", "nfs", "git", "git+ssh", "ws", "wss",
   "itms-services"]

/-- CPython `uses_params`. -/
def uses_params : List String :=
  ["", "ftp", "hdl", "prospero", "http", "imap", "https", "shttp", "rtsp",
   "rtspu", "sip", "sips", "mms", "sftp", "tel"]

/-- Scheme extraction step of `urlsplit`: returns the (lower-cased) scheme
and the remainder, or the supplied default scheme when no valid scheme
prefix is present. -/
def urlsplitScheme (l : List Char) (default_scheme : String) :
    String × List Char :=
  match findCharIdx ':' l with
  | some i =>
    if 0 < i ∧ (match l.head? with
                | some c => isAsciiAlpha c
                | none => false) = true
        ∧ (l.take i).all isSchemeChar = true then
      (String.mk ((l.take i).map pyLowerChar), l.drop (i + 1))
    else (default_scheme, l)
  | none => (default_scheme, l)

/-- CPython `_splitnetloc` (applied after the leading `//` was dropped):
the netloc runs up to the first `/`, `?` or `#`. -/
def splitNetloc (l : List Char) : List Char × List Char :=
  let delim := (l.findIdx? (fun c => c = '/' || c = '?' || c = '#')).getD l.length
  (l.take delim, l.drop delim)

/-- Split at the first occurrence of `c`, dropping it (Python
`s.split(c, 1)` when `c` occurs). -/
def splitAtFirstChar (c : Char) (l : List Char) : List Char × List Char :=
  match findCharIdx c l with
  | some i => (l.take i, l.drop (i + 1))
  | none => (l, [])

/-- Result of `urllib.parse.urlparse`. -/
structure ParseResult where
  scheme : String
  netloc : String
  path : String
  params : String
  query : String
  fragment : String
  deriving DecidableEq, Repr

/-- CPython `urlsplit` (bracket-validation and control-character stripping of
recent CPython omitted; no raising inputs occur in the claims). -/
def urlsplit (url : String) (default_scheme : String) :
    String × String × String × String × String :=
  let sr := urlsplitScheme url.data default_scheme
  let nr :=
    if startsWithChars ['/', '/'] sr.2 then splitNetloc (sr.2.drop 2)
    else ([], sr.2)
  let fr :=
    if containsChar nr.2 '#' then splitAtFirstChar '#' nr.2 else (nr.2, [])
  let pq :=
    if containsChar fr.1 '?' then splitAtFirstChar '?' fr.1 else (fr.1, [])
  (sr.1, String.mk nr.1, String.mk pq.1, String.mk pq.2, String.mk fr.2)

/-- CPython `_splitparams`: split parameters after the `;` that follows the
last `/` (or anywhere when there is no `/`). -/
def splitparams (l : List Char) : List Char × List Char :=
  if containsChar l '/' then
    let start := (rfindCharIdx '/' l).getD 0
    match findCharIdx ';' (l.drop start) with
    | none => (l, [])
    | some j => (l.take (start + j), l.drop (start + j + 1))
  else
    match findCharIdx ';' l with
    | none => (l, [])
    | some i => (l.take i, l.drop (i + 1))

/-- CPython `urlparse` with an explicit default scheme (the second Python
argument; the program always uses the one-argument form, default `""`). -/
def urlparseWith (url : String) (default_scheme : String) : ParseResult :=
  let t := urlsplit url default_scheme
  if uses_params.contains t.1 ∧ containsChar t.2.2.1.data ';' then
    ⟨t.1, t.2.1, String.mk (splitparams t.2.2.1.data).1,
      String.mk (splitparams t.2.2.1.data).2, t.2.2.2.1, t.2.2.2.2⟩
  else ⟨t.1, t.2.1, t.2.2.1, "", t.2.2.2.1, t.2.2.2.2⟩

/-- Python `urllib.parse.urlparse(url)`. -/
def urlparse (url : String) : ParseResult :=
  urlparseWith url ""

/-- CPython `urlunsplit`. -/
def urlunsplit (scheme netloc url query fragment : String) : String :=
  let u := url.data
  let u :=
    if netloc ≠ "" ∨ (u ≠ [] ∧ startsWithChars ['/', '/'] u = true) then
      let u2 := if u ≠ [] ∧ ¬ startsWithChars ['/'] u = true then '/' :: u else u
      '/' :: '/' :: (netloc.data ++ u2)
    else u
  let u := if scheme ≠ "" then scheme.data ++ ':' :: u else u
  let u := if query ≠ "" then u ++ '?' :: query.data else u
  let u := if fragment ≠ "" then u ++ '#' :: fragment.data else u
  String.mk u

/-- CPython `urlunparse`. -/
def urlunparse (scheme netloc path params query fragment : String) : String :=
  let path := if params ≠ "" then path ++ ";" ++ params else path
  urlunsplit scheme netloc path query fragment

/-- Python `segments[1:-1] = filter(None, segments[1:-1])`: drop empty
segments except the first and last one. -/
def filterMiddle (l : List (List Char)) : List (List Char) :=
  match l with
  | [] => []
  | x :: xs =>
    match xs.getLast? with
    | none => [x]
    | some last => x :: (xs.dropLast.filter (fun s => s ≠ [])) ++ [last]

/-- CPython `urljoin`. -/
def urljoin (base url : String) : String :=
  if base = "" then url
  else if url = "" then base
  else
    let bp := urlparseWith base ""
    let up := urlparseWith url bp.scheme
    if up.scheme ≠ bp.scheme ∨ ¬ uses_relative.contains up.scheme then url
    else if uses_netloc.contains up.scheme ∧ up.netloc ≠ "" then
      urlunparse up.scheme up.netloc up.path up.params up.query up.fragment
    else
      let netloc :=
        if uses_netloc.contains up.scheme then bp.netloc else up.netloc
      if up.path = "" ∧ up.params = "" then
        let query := if up.query = "" then bp.query else up.query
        urlunparse up.scheme netloc bp.path bp.params query up.fragment
      else
        let base_parts0 := splitOnChar '/' bp.path.data
        let base_parts :=
          if base_parts0.getLast? ≠ some [] then base_parts0.dropLast
          else base_parts0
        let segments :=
          if startsWithChars ['/'] up.path.data then splitOnChar '/' up.path.data
          else filterMiddle (base_parts ++ splitOnChar '/' up.path.data)
        let resolved := segments.foldl
          (fun acc seg =>
            if seg = ['.', '.'] then acc.dropLast
            else if seg = ['.'] then acc
            else acc ++ [seg]) []
        let resolved :=
          if segments.getLast? = some ['.'] ∨ segments.getLast? = some ['.', '.']
          then resolved ++ [[]] else resolved
        let joined := List.intercalate ['/'] resolved
        let path := if joined = [] then "/" else String.mk joined
        urlunparse up.scheme netloc path up.params up.query up.fragment

/-! ## `os.path` (POSIX flavour)

The process's working directory is modelled as `/`; all paths the program
builds come from its `save_dir`/`img_folder` arguments, which the concrete
witnesses pass in absolute form. -/

/-- Python `os.path.join(a, b)` (posixpath, two arguments). -/
def os_path_join (a b : String) : String :=
  if startsWithStr b "/" then b
  else if a = "" ∨ endsWithStr a "/" = true then a ++ b
  else a ++ "/" ++ b

/-- Drop trailing `/` characters (Python `head.rstrip('/')`). -/
def dropTrailingSlashes (l : List Char) : List Char :=
  (l.reverse.dropWhile (· = '/')).reverse

/-- Python `os.path.dirname` (posixpath). -/
def os_path_dirname (p : String) : String :=
  let l := p.data
  let i := ((rfindCharIdx '/' l).map (· + 1)).getD 0
  let head := l.take i
  if head ≠ [] ∧ head.any (· ≠ '/') = true then
    String.mk (dropTrailingSlashes head)
  else String.mk head

/-- Python `os.path.splitext` (generic `_splitext` with `sep = '/'`,
`extsep = '.'`): the extension starts at the last dot of the basename,
unless the basename consists only of leading dots up to there. -/
def os_path_splitext (p : String) : String × String :=
  let l := p.data
  match rfindCharIdx '.' l with
  | none => (p, "")
  | some d =>
    let filenameStart :=
      match rfindCharIdx '/' l with
      | some s => if d ≤ s then none else some (s + 1)
      | none => some 0
    match filenameStart with
    | none => (p, "")
    | some fs =>
      if ((l.drop fs).take (d - fs)).any (· ≠ '.') then
        (String.mk (l.take d), String.mk (l.drop d))
      else (p, "")

/-- Non-empty `/`-separated components of a path
(`[x for x in p.split('/') if x]`). -/
def pathParts (p : String) : List String :=
  ((splitOnChar '/' p.data).map String.mk).filter (· ≠ "")

/-- Resolution of `.` and `..` components (the effect of `os.path.normpath`
on an absolute path's component list). -/
def normParts (parts : List String) : List String :=
  parts.foldl
    (fun acc x =>
      if x = ".." then acc.dropLast
      else if x = "." then acc
      else acc ++ [x]) []

/-- Length of the common prefix of two component lists
(`os.path.commonprefix`). -/
def commonPrefixLen : List String → List String → Nat
  | x :: xs, y :: ys => if x = y then 1 + commonPrefixLen xs ys else 0
  | _, _ => 0

/-- Python `os.path.relpath(path, start)` (posixpath, working directory
modelled as `/`). -/
def os_path_relpath (path start : String) : String :=
  let pl := normParts (pathParts path)
  let sl := normParts (pathParts start)
  let i := commonPrefixLen sl pl
  let rel := List.replicate (sl.length - i) ".." ++ pl.drop i
  if rel = [] then "." else String.intercalate "/" rel

/-- Python `s.replace('\\', '/')`. -/
def replaceBackslash (s : String) : String :=
  String.mk (s.data.map (fun c => if c = '\\' then '/' else c))

/-! ## `sanitize_filename` -/

/-- The characters the sanitizer replaces: `\ / * ? : " < > |`
(the regex `[\\/*?:"<>|]` in the source). -/
def isInvalidFileChar (c : Char) : Bool :=
  c = '\\' || c = '/' || c = '*' || c = '?' || c = ':' ||
    c = '"' || c = '<' || c = '>' || c = '|'

/-- Characters matched by Python's `\s` (ASCII fragment; `\s` additionally
matches some non-ASCII Unicode whitespace, which no claim involves). -/
def isPySpace (c : Char) : Bool :=
  c = ' ' || c = '\t' || c = '\n' || c = '\r' || c = '\x0b' || c = '\x0c'

/-- Python `re.sub(r'\s+', ' ', s)`: collapse each maximal whitespace run to
a single space. -/
def collapsePySpace : List Char → List Char
  | [] => []
  | [c] => if isPySpace c then [' '] else [c]
  | c1 :: c2 :: rest =>
    if isPySpace c1 && isPySpace c2 then collapsePySpace (c2 :: rest)
    else (if isPySpace c1 then ' ' else c1) :: collapsePySpace (c2 :: rest)

/-- Python `s.strip()` (ASCII whitespace fragment). -/
def pyStrip (l : List Char) : List Char :=
  ((l.dropWhile isPySpace).reverse.dropWhile isPySpace).reverse

/-- Step 1 of the sanitizer: `filename.replace('\n', ' ').replace('\r', '
').replace('\t', ' ')`. -/
def sanitizeChar1 (c : Char) : Char :=
  if c = '\n' || c = '\r' || c = '\t' then ' ' else c

/-- Step 2 of the sanitizer: `re.sub(r'[\\/*?:"<>|]', '_', filename)`. -/
def sanitizeChar2 (c : Char) : Char :=
  if isInvalidFileChar c then '_' else c

/-- The sanitizer's intermediate value after newline replacement, invalid
character replacement and whitespace collapsing. -/
def sanitizeCollapsed (s : String) : List Char :=
  collapsePySpace ((s.data.map sanitizeChar1).map sanitizeChar2)

/-- Body of `sanitize_filename` before its final emptiness check: replace
newlines/tabs by spaces, replace the forbidden characters by `_`, collapse
whitespace runs, truncate to 97 characters plus `...` when longer than 100,
strip surrounding whitespace. -/
def sanitizeSteps (s : String) : List Char :=
  pyStrip (if 100 < (sanitizeCollapsed s).length then
    (sanitizeCollapsed s).take 97 ++ ['.', '.', '.'] else sanitizeCollapsed s)

/-- Python `sanitize_filename(filename)`; `none` models a `None` argument. -/
def sanitize_filename : Option String → String
  | none => "untitled"
  | some filename =>
    let s := sanitizeSteps filename
    if s = [] then "untitled" else String.mk s

/-! ## `should_download_image` -/

/-- The module constant `IGNORED_EXTENSIONS`. -/
def IGNORED_EXTENSIONS : List String :=
  [".ico", ".webp", ".svg", ".gif", ".bmp", ".tiff"]

/-- Python `should_download_image(img_url)`: reject when the lower-cased
path of the parsed URL ends with an ignored extension (the source's
for-loop with an early `return False`). -/
def should_download_image (img_url : String) : Bool :=
  let path := pyLowerStr (urlparse img_url).path
  !(IGNORED_EXTENSIONS.any (fun ext => endsWithStr path ext))

/-! ## Effect state and the HTTP transport oracle -/

/-- A Python exception value (only its presence matters). -/
structure PyErr where
  msg : String
  deriving DecidableEq, Repr

/-- Observable effect state: the set of files on disk (the image cache) and
the chronological log of URLs for which a network fetch was attempted. -/
structure St where
  files : List String
  netLog : List String
  deriving DecidableEq, Repr

/-- The HTTP transport capability: status code and body, or a transport
exception (connection error, timeout). -/
def HttpOracle : Type := String → Except PyErr (Nat × String)

/-- Python `requests.get(url, ...)`: only `http://`/`https://` URLs have a
connection adapter; any other scheme raises `InvalidSchema` before any
network activity, so only supported schemes are appended to the network
log. -/
def requests_get (g : HttpOracle) (url : String) (st : St) :
    Except PyErr (Nat × String) × St :=
  if startsWithStr url "http://" || startsWithStr url "https://" then
    (g url, { st with netLog := st.netLog ++ [url] })
  else (Except.error ⟨"InvalidSchema"⟩, st)

/-! ## `download_image` -/

/-- Lines 73–75 of the source: resolve a relative image URL against the
page URL (`if not img_url.startswith(('http://', 'https://')): img_url =
urljoin(base_url, img_url)`). -/
def resolve_img_url (base_url img_url : String) : String :=
  if startsWithStr img_url "http://" || startsWithStr img_url "https://" then
    img_url
  else urljoin base_url img_url

/-- Lines 81–90 of the source: the local file name is the md5 hex digest of
the resolved URL plus the URL path's own extension, defaulting to `.jpg`
when the extension is missing or longer than 5 characters. -/
def img_filename (url : String) : String :=
  let extension := (os_path_splitext (urlparse url).path).2
  let extension :=
    if extension = "" ∨ 5 < extension.length then ".jpg" else extension
  md5Hex url ++ extension

/-- The cache path `img_path = os.path.join(img_folder, img_filename)` of
a resolved URL (line 91 of the source). -/
def img_cache_path (img_folder url : String) : String :=
  os_path_join img_folder (img_filename url)

/-- The `try:`-block body of `download_image`: resolve the URL, apply the
policy filter, compute the cache path, return it when the file already
exists, otherwise fetch (status 200 writes the file and succeeds, any other
status yields `None`). A transport exception escapes as `Except.error`,
carrying the state reached so far. (The source's local variables `img_url`
after resolution and `img_path` are written out via `resolve_img_url` and
`img_cache_path`.) -/
def download_image_body (g : HttpOracle)
    (img_url base_url img_folder : String) (st : St) :
    Except (PyErr × St) (Option String × St) :=
  if ¬ should_download_image (resolve_img_url base_url img_url) = true then
    Except.ok (none, st)
  else
    -- os.makedirs(os.path.dirname(img_path), exist_ok=True): creates a
    -- directory only, no effect on the file set.
    if img_cache_path img_folder (resolve_img_url base_url img_url) ∈ st.files then
      Except.ok (some (img_cache_path img_folder (resolve_img_url base_url img_url)), st)
    else
      match requests_get g (resolve_img_url base_url img_url) st with
      | (Except.error e, st') => Except.error (e, st')
      | (Except.ok (status, _body), st') =>
        if status = 200 then
          Except.ok (some (img_cache_path img_folder (resolve_img_url base_url img_url)),
            { st' with files := st'.files ++
                [img_cache_path img_folder (resolve_img_url base_url img_url)] })
        else Except.ok (none, st')

/-- Python `download_image(img_url, base_url, img_folder)`: the body wrapped
in the function's catch-all `except`, which turns any exception into
`None`. -/
def download_image (g : HttpOracle)
    (img_url base_url img_folder : String) (st : St) : Option String × St :=
  match download_image_body g img_url base_url img_folder st with
  | Except.ok r => r
  | Except.error (_, st') => (none, st')

/-- The relative-path rewrite shared verbatim by `process_images` and
`replace_md_image_urls`: `os.path.relpath(local_path,
os.path.dirname(md_file_path)).replace('\\', '/')`. -/
def relative_to_md (local_path md_file_path : String) : String :=
  replaceBackslash (os_path_relpath local_path (os_path_dirname md_file_path))

/-! ## The parsed HTML tree (`BeautifulSoup`)

Element nodes carry a tag name, an attribute list and children; text nodes
carry a string. The document returned by `BeautifulSoup(...)` is the element
`[document]` wrapping the parsed top-level nodes (as in bs4). `select_one`,
`find` and `find_all` search the strict descendants in document (pre-)order,
as bs4 does. In bs4 a `Tag` is always truthy (`Tag.__bool__` returns `True`),
so the source's `if content:` / `if not main_content:` tests are `Option`
matches here. -/

/-- A node of the parsed page. -/
inductive Node where
  | elem (tag : String) (attrs : List (String × String)) (children : List Node)
  | text (s : String)
  deriving Repr

/-- Attribute lookup (`tag.get(key)`). -/
def getAttr (attrs : List (String × String)) (key : String) : Option String :=
  (attrs.find? (fun p => p.1 = key)).map (fun p => p.2)

/-- Attribute update (`tag[key] = val`). -/
def setAttr (attrs : List (String × String)) (key val : String) :
    List (String × String) :=
  if (attrs.find? (fun p => p.1 = key)).isSome then
    attrs.map (fun p => if p.1 = key then (key, val) else p)
  else attrs ++ [(key, val)]

/-- Whitespace-separated words of a string (how bs4 reads the multi-valued
`class` attribute). -/
def splitWsAux (acc : List Char) : List Char → List String
  | [] => if acc = [] then [] else [String.mk acc.reverse]
  | c :: cs =>
    if isPySpace c then
      if acc = [] then splitWsAux [] cs
      else String.mk acc.reverse :: splitWsAux [] cs
    else splitWsAux (c :: acc) cs

/-- The class list of an element. -/
def classList (attrs : List (String × String)) : List String :=
  match getAttr attrs "class" with
  | none => []
  | some s => splitWsAux [] s.data

/-- Match one simple CSS selector (tag name, `.class` or `#id`) against an
element — the only selector forms the source uses. -/
def matchesSel (sel : String) (tag : String)
    (attrs : List (String × String)) : Bool :=
  match sel.data with
  | '.' :: rest => (classList attrs).contains (String.mk rest)
  | '#' :: rest => getAttr attrs "id" = some (String.mk rest)
  | _ => tag = sel

/-- Match any selector of a comma-separated selector list. -/
def matchesAnySel (sels : List String) (tag : String)
    (attrs : List (String × String)) : Bool :=
  sels.any (fun s => matchesSel s tag attrs)

mutual
/-- First element satisfying `p` in a node's self-or-descendants,
pre-order. -/
def findFirstNode (p : String → List (String × String) → Bool) :
    Node → Option Node
  | Node.text _ => none
  | Node.elem t a c =>
    if p t a then some (Node.elem t a c) else findFirstList p c

/-- First element satisfying `p` in a forest, pre-order. -/
def findFirstList (p : String → List (String × String) → Bool) :
    List Node → Option Node
  | [] => none
  | n :: rest =>
    match findFirstNode p n with
    | some r => some r
    | none => findFirstList p rest
end

/-- bs4 `soup.select_one(sel)`: first matching strict descendant in
document order. -/
def select_one (sel : String) : Node → Option Node
  | Node.text _ => none
  | Node.elem _ _ c => findFirstList (matchesSel sel) c

/-- bs4 `soup.find(name)`: first strict descendant with the given tag. -/
def soup_find_tag (name : String) : Node → Option Node
  | Node.text _ => none
  | Node.elem _ _ c => findFirstList (fun t _ => t = name) c

/-- The selector list of the source's clean-up step:
`soup.select('script, style, iframe, nav, footer, .sidebar,
.advertisement, .ads')`. -/
def noise_selectors : List String :=
  ["script", "style", "iframe", "nav", "footer", ".sidebar",
   ".advertisement", ".ads"]

mutual
/-- Effect of `element.decompose()` applied to every descendant matched by
the noise selectors: `none` means the whole subtree is removed. -/
def cleanNode : Node → Option Node
  | Node.text s => some (Node.text s)
  | Node.elem t a c =>
    if matchesAnySel noise_selectors t a then none
    else some (Node.elem t a (cleanList c))

/-- Clean-up over a forest. -/
def cleanList : List Node → List Node
  | [] => []
  | n :: rest =>
    match cleanNode n with
    | some n' => n' :: cleanList rest
    | none => cleanList rest
end

/-- Lines 215–217 of the source: remove every noise element from the
document (the document root itself is never selected). -/
def clean_soup : Node → Node
  | Node.text s => Node.text s
  | Node.elem t a c => Node.elem t a (cleanList c)

/-- bs4 `tag.string`: descend while there is exactly one child; a text node
yields its string, anything else `None`. -/
def nodeString : Node → Option String
  | Node.text s => some s
  | Node.elem _ _ [c] => nodeString c
  | Node.elem _ _ _ => none

/-- The ordered preference list of lines 220–226 of the source. -/
def content_selectors : List String :=
  ["article", "main", ".main-content", ".post-content", ".entry-content",
   ".content", "#content"]

/-- The source's selector loop (lines 221–226): first selector whose
`select_one` finds a match wins (`if content: … break`; a found `Tag` is
always truthy in bs4). -/
def selectLoop (soup : Node) : List String → Option Node
  | [] => none
  | sel :: rest =>
    match select_one sel soup with
    | some c => some c
    | none => selectLoop soup rest

/-- Lines 220–232 of the source: try the content selectors in order, fall
back to the `body` element, then to the whole document. -/
def select_main_content (soup : Node) : Node :=
  match selectLoop soup content_selectors with
  | some c => c
  | none =>
    match soup_find_tag "body" soup with
    | some b => b
    | none => soup

/-- Modelled from the spec's words for §4.6 (refinement comparison for the
Main Content Selector): "Ordered preference list of structural queries;
return the first non-empty match. If none match, fall back to the whole
body element; if no body element exists, fall back to the entire parsed
tree." -/
def selectMainContentSpec (soup : Node) : Node :=
  match content_selectors.findSome? (fun sel => select_one sel soup) with
  | some c => c
  | none => (soup_find_tag "body" soup).getD soup

/-! ## `process_images` (the Tree Image Rewriter) -/

/-- The body of the `find_all('img')` loop for one element: an `img`
element with a non-empty, non-data-URI `src` is localized; on success its
`src` becomes the path of the local file relative to the markdown file's
directory, on failure it is left untouched; any other element is
unchanged. -/
def processImgAttrs (g : HttpOracle)
    (base_url img_folder md_file_path : String) (tag : String)
    (attrs : List (String × String)) (st : St) :
    List (String × String) × St :=
  if tag = "img" then
    match getAttr attrs "src" with
    | some src =>
      if src ≠ "" then
        if startsWithStr src "data:" then (attrs, st)
        else
          let dl := download_image g src base_url img_folder st
          match dl.1 with
          | some lp =>
            (setAttr attrs "src" (relative_to_md lp md_file_path), dl.2)
          | none => (attrs, dl.2)
      else (attrs, st)
    | none => (attrs, st)
  else (attrs, st)

mutual
/-- Per-node step of `process_images`, threading state in document
(pre-)order — the order `find_all` yields the `img` elements. -/
def processImagesNode (g : HttpOracle)
    (base_url img_folder md_file_path : String) :
    Node → St → Node × St
  | Node.text s, st => (Node.text s, st)
  | Node.elem tag attrs children, st =>
    let as' := processImgAttrs g base_url img_folder md_file_path tag attrs st
    let cs' := processImagesList g base_url img_folder md_file_path children as'.2
    (Node.elem tag as'.1 cs'.1, cs'.2)

/-- `process_images` over a forest, left to right. -/
def processImagesList (g : HttpOracle)
    (base_url img_folder md_file_path : String) :
    List Node → St → List Node × St
  | [], st => ([], st)
  | n :: rest, st =>
    let r1 := processImagesNode g base_url img_folder md_file_path n st
    let r2 := processImagesList g base_url img_folder md_file_path rest r1.2
    (r1.1 :: r2.1, r2.2)
end

/-- Python `process_images(soup, base_url, img_folder, md_file_path)`. -/
def process_images (g : HttpOracle) (soup : Node)
    (base_url img_folder md_file_path : String) (st : St) : Node × St :=
  processImagesNode g base_url img_folder md_file_path soup st

/-! ## `replace_md_image_urls` (the Text Image Rewriter)

`re.sub(r'!\[(.*?)\]\((https?://[^)]+)\)', replace_url, markdown_text)` is
embedded as a scanner producing the leftmost-first match decomposition of
the text, followed by a state-threading fold that renders each token the
way `replace_url` does. The scanner implements the regex's semantics
exactly: `.*?` is lazy and cannot cross a newline, `[^)]+` greedily takes
the maximal run of non-`)` characters, which must be non-empty and followed
by `)`. -/

/-- The run of `[^)]+\)` matching: characters up to the first `)` (the
maximal run a greedy `[^)]+` can take), and the remainder after that `)`;
`none` when no closing `)` exists. -/
def parenRun : List Char → Option (List Char × List Char)
  | [] => none
  | c :: cs =>
    if c = ')' then some ([], cs)
    else
      match parenRun cs with
      | some (run, rest) => some (c :: run, rest)
      | none => none

/-- Match `pre` (a scheme prefix) then `[^)]+\)` at the head of `l`;
returns the captured URL (scheme prefix plus the non-empty run) and the
remainder after the closing parenthesis. -/
def matchSchemeUrl (pre l : List Char) : Option (List Char × List Char) :=
  if startsWithChars pre l = true then
    match parenRun (l.drop pre.length) with
    | some (run, rest) => if run = [] then none else some (pre ++ run, rest)
    | none => none
  else none

/-- Match `https?://[^)]+\)` at the head of `l` (no string matches both
scheme prefixes, so the order is immaterial). -/
def matchMdUrl (l : List Char) : Option (List Char × List Char) :=
  match matchSchemeUrl "https://".data l with
  | some r => some r
  | none => matchSchemeUrl "http://".data l

/-- Close attempt of the lazy alt scan: `]` `(` URL `)` at the head of
`l`, with `acc` the (reversed) alt characters consumed so far. -/
def tryCloseAlt (acc l : List Char) : Option (List Char × List Char × List Char) :=
  match l with
  | c1 :: c2 :: cs2 =>
    if c1 = ']' ∧ c2 = '(' then
      (matchMdUrl cs2).map (fun p => (acc.reverse, p.1, p.2))
    else none
  | _ => none

/-- Lazy scan for the alt text: at each position first try to close the
match, else extend the alt text by the current character (which `.` must
match, so a newline fails the whole attempt). -/
def matchMdAlt (acc : List Char) : List Char → Option (List Char × List Char × List Char)
  | [] => none
  | c :: cs =>
    match tryCloseAlt acc (c :: cs) with
    | some r => some r
    | none => if c = '\n' then none else matchMdAlt (c :: acc) cs

/-- Attempt the full image pattern at the head of `l`; on success returns
`(alt, url, remainder)`. -/
def matchMdImageAt (l : List Char) : Option (List Char × List Char × List Char) :=
  match l with
  | c1 :: c2 :: rest =>
    if c1 = '!' ∧ c2 = '[' then matchMdAlt [] rest else none
  | _ => none

/-- A piece of the `re.sub` decomposition: literal text between matches, or
one image match with its two capture groups. -/
inductive MdToken where
  | plain (s : List Char)
  | img (alt url : List Char)
  deriving Repr

/-- The source text of a token (`match.group(0)` for an image match). -/
def mdTokenText : MdToken → List Char
  | MdToken.plain s => s
  | MdToken.img alt url => '!' :: '[' :: alt ++ ']' :: '(' :: url ++ [')']

theorem startsWithChars_eq_append : ∀ (p l : List Char),
    startsWithChars p l = true → l = p ++ l.drop p.length := by
  intro p
  induction p with
  | nil => intro l _; simp
  | cons x xs ih =>
    intro l h
    cases l with
    | nil => simp [startsWithChars] at h
    | cons c cs =>
      simp only [startsWithChars, Bool.and_eq_true, decide_eq_true_eq] at h
      obtain ⟨rfl, h2⟩ := h
      simpa using congrArg (x :: ·) (ih cs h2)

theorem parenRun_eq : ∀ (l run rest : List Char),
    parenRun l = some (run, rest) → l = run ++ ')' :: rest := by
  intro l
  induction l with
  | nil => intro run rest h; simp [parenRun] at h
  | cons c cs ih =>
    intro run rest h
    unfold parenRun at h
    by_cases hc : c = ')'
    · simp only [hc, if_true, Option.some.injEq, Prod.mk.injEq] at h
      obtain ⟨rfl, rfl⟩ := h
      simp [hc]
    · simp only [hc, if_false] at h
      cases hp : parenRun cs with
      | none => rw [hp] at h; simp at h
      | some p =>
        rw [hp] at h
        cases p with
        | mk r2 rest2 =>
          simp only [Option.some.injEq, Prod.mk.injEq] at h
          obtain ⟨h1, h2⟩ := h
          rw [← h1, ← h2, List.cons_append]
          exact congrArg (List.cons c) (ih r2 rest2 hp)

theorem matchSchemeUrl_eq {pre l url rest : List Char}
    (h : matchSchemeUrl pre l = some (url, rest)) :
    l = url ++ ')' :: rest := by
  unfold matchSchemeUrl at h
  by_cases hs : startsWithChars pre l = true
  · simp only [hs, if_true] at h
    cases hp : parenRun (l.drop pre.length) with
    | none => rw [hp] at h; simp at h
    | some p =>
      rw [hp] at h
      cases p with
      | mk run rest2 =>
        by_cases hr : run = []
        · simp [hr] at h
        · simp only [hr, if_false, Option.some.injEq, Prod.mk.injEq] at h
          obtain ⟨h1, h2⟩ := h
          have hdrop := parenRun_eq _ _ _ hp
          rw [← h1, ← h2, startsWithChars_eq_append pre l hs, hdrop,
            List.append_assoc]
  · simp [hs] at h

theorem matchMdUrl_eq {l url rest : List Char}
    (h : matchMdUrl l = some (url, rest)) : l = url ++ ')' :: rest := by
  unfold matchMdUrl at h
  cases h1 : matchSchemeUrl "https://".data l with
  | some r =>
    rw [h1] at h
    cases r with
    | mk a b =>
      simp only [Option.some.injEq, Prod.mk.injEq] at h
      obtain ⟨rfl, rfl⟩ := h
      exact matchSchemeUrl_eq h1
  | none =>
    rw [h1] at h
    exact matchSchemeUrl_eq h

theorem tryCloseAlt_eq {acc l alt url rest : List Char}
    (h : tryCloseAlt acc l = some (alt, url, rest)) :
    alt = acc.reverse ∧ l = ']' :: '(' :: url ++ ')' :: rest := by
  cases l with
  | nil => exact Option.noConfusion h
  | cons c1 l1 =>
    cases l1 with
    | nil => exact Option.noConfusion h
    | cons c2 cs2 =>
      by_cases hb : c1 = ']' ∧ c2 = '('
      · obtain ⟨rfl, rfl⟩ := hb
        simp only [tryCloseAlt, and_self, if_true] at h
        cases hu : matchMdUrl cs2 with
        | none => rw [hu] at h; simp at h
        | some p =>
          rw [hu] at h
          simp only [Option.map_some', Option.some.injEq, Prod.mk.injEq] at h
          obtain ⟨h1, h2, h3⟩ := h
          refine ⟨h1.symm, ?_⟩
          rw [← h2, ← h3]
          rw [matchMdUrl_eq hu]
          simp [List.cons_append]
      · simp [tryCloseAlt, hb] at h

theorem matchMdAlt_eq : ∀ (l acc alt url rest : List Char),
    matchMdAlt acc l = some (alt, url, rest) →
    acc.reverse ++ l = alt ++ ']' :: '(' :: url ++ ')' :: rest := by
  intro l
  induction l with
  | nil => intro acc alt url rest h; simp [matchMdAlt] at h
  | cons c cs ih =>
    intro acc alt url rest h
    unfold matchMdAlt at h
    cases hcl : tryCloseAlt acc (c :: cs) with
    | some r =>
      rw [hcl] at h
      simp only [Option.some.injEq] at h
      subst h
      obtain ⟨ha, hl⟩ := tryCloseAlt_eq hcl
      subst ha
      rw [hl]
      simp [List.append_assoc]
    | none =>
      rw [hcl] at h
      by_cases hnl : c = '\n'
      · simp [hnl] at h
      · simp only [hnl, if_false] at h
        have := ih (c :: acc) alt url rest h
        simpa using this

theorem matchMdImageAt_eq {l alt url rest : List Char}
    (h : matchMdImageAt l = some (alt, url, rest)) :
    l = mdTokenText (MdToken.img alt url) ++ rest := by
  unfold matchMdImageAt at h
  cases l with
  | nil => simp at h
  | cons c1 l1 =>
    cases l1 with
    | nil => simp at h
    | cons c2 r =>
      by_cases hb : c1 = '!' ∧ c2 = '['
      · obtain ⟨rfl, rfl⟩ := hb
        simp only [and_self, if_true] at h
        have := matchMdAlt_eq r [] alt url rest h
        simp only [List.reverse_nil, List.nil_append] at this
        simp [mdTokenText, this]
      · simp [hb] at h

theorem matchMdImageAt_length {l alt url rest : List Char}
    (h : matchMdImageAt l = some (alt, url, rest)) :
    rest.length < l.length := by
  have := congrArg List.length (matchMdImageAt_eq h)
  simp only [List.length_append, mdTokenText, List.length_cons] at this
  omega

/-- Leftmost-first scan of the text into literal pieces and image matches
(the decomposition `re.sub` traverses); `acc` holds the pending literal
characters in reverse. The first argument is structural fuel — always
instantiated with the text length, which bounds the number of steps
because every match consumes at least one character
(`matchMdImageAt_length`); the fuel-exhausted case is unreachable then. -/
def tokAux : Nat → List Char → List Char → List MdToken
  | _, acc, [] => if acc = [] then [] else [MdToken.plain acc.reverse]
  | 0, acc, c :: cs => [MdToken.plain (acc.reverse ++ c :: cs)]
  | fuel + 1, acc, c :: cs =>
    match matchMdImageAt (c :: cs) with
    | some (alt, url, rest) =>
      (if acc = [] then [] else [MdToken.plain acc.reverse]) ++
        MdToken.img alt url :: tokAux fuel [] rest
    | none => tokAux fuel (c :: acc) cs

/-- The `re.sub` match decomposition of a text. -/
def tokenizeMd (l : List Char) : List MdToken :=
  tokAux l.length [] l

/-- The fold over the decomposition performing `replace_url`: an image
match is localized and, on success, re-rendered with the same alt text and
the local path relative to the markdown file's directory; on failure the
match is reproduced verbatim (`return match.group(0)`). Literal pieces are
emitted unchanged. -/
def mdTokensOut (g : HttpOracle)
    (base_url img_folder md_file_path : String) :
    List MdToken → St → List Char × St
  | [], st => ([], st)
  | MdToken.plain s :: rest, st =>
    let r := mdTokensOut g base_url img_folder md_file_path rest st
    (s ++ r.1, r.2)
  | MdToken.img alt url :: rest, st =>
    let dl := download_image g (String.mk url) base_url img_folder st
    let piece :=
      match dl.1 with
      | some lp =>
        '!' :: '[' :: alt ++ ']' :: '(' ::
          (relative_to_md lp md_file_path).data ++ [')']
      | none => mdTokenText (MdToken.img alt url)
    let r := mdTokensOut g base_url img_folder md_file_path rest dl.2
    (piece ++ r.1, r.2)

/-- Python `replace_md_image_urls(markdown_text, base_url, img_folder,
md_file_path)`. -/
def replace_md_image_urls (g : HttpOracle) (markdown_text : String)
    (base_url img_folder md_file_path : String) (st : St) : String × St :=
  let r := mdTokensOut g base_url img_folder md_file_path
    (tokenizeMd markdown_text.data) st
  (String.mk r.1, r.2)

/-! ## The page pipeline (`fetch_and_convert_to_markdown`) -/

/-- The external capabilities the pipeline consumes, exactly the
collaborators the specification scopes out: the HTTP transport, the HTML
parser (returning the parsed top-level nodes wrapped by the `[document]`
root), tree serialization (`str(tag)`), markdown conversion
(`markdownify(..., heading_style="ATX")`), and the strftime timestamp of
this run. -/
structure Oracles where
  httpGet : HttpOracle
  parseHtml : String → List Node
  render : Node → String
  markdownifyATX : String → String
  timestamp : String

/-- Python `fetch_and_convert_to_markdown(url, save_dir, img_folder)`.
The top-level `try/except` surfaces any escaped exception (here: a page
fetch transport error) as `(None, "Error_Page", None)`; a non-200 status
returns `(None, None, None)`. -/
def fetch_and_convert_to_markdown (o : Oracles) (url save_dir : String)
    (img_folder : Option String) (st : St) :
    (Option String × Option String × Option String) × St :=
  -- os.makedirs(save_dir) / os.makedirs(img_folder): directory effects only
  let img_folder := img_folder.getD (os_path_join save_dir "images")
  match requests_get o.httpGet url st with
  | (Except.error _, st') => ((none, some "Error_Page", none), st')
  | (Except.ok (status, content), st') =>
    if status ≠ 200 then ((none, none, none), st')
    else
      let soup := Node.elem "[document]" [] (o.parseHtml content)
      let title :=
        match soup_find_tag "title" soup with
        | some t => (nodeString t).getD "Untitled Page"
        | none => "Untitled Page"
      let sanitized_title := sanitize_filename (some title)
      let sanitized_title :=
        if sanitized_title = "" then "untitled_page" else sanitized_title
      let output_file := sanitized_title ++ "_" ++ o.timestamp ++ ".md"
      let md_file_path := os_path_join save_dir output_file
      let pi := process_images o.httpGet soup url img_folder md_file_path st'
      let soup3 := clean_soup pi.1
      let main_content := select_main_content soup3
      let markdown_content := o.markdownifyATX (o.render main_content)
      let rep := replace_md_image_urls o.httpGet
        markdown_content url img_folder md_file_path pi.2
      let markdown_document := "# " ++ title ++ "\n\n" ++ rep.1
      ((some markdown_document, some title, some md_file_path), rep.2)

/-! ## Helper lemmas for the sanitizer -/

theorem collapsePySpace_length_le :
    ∀ l : List Char, (collapsePySpace l).length ≤ l.length := by
  intro l
  induction l with
  | nil => simp [collapsePySpace]
  | cons c1 tail ih =>
    cases tail with
    | nil =>
      cases h : isPySpace c1 <;> simp [collapsePySpace, h]
    | cons c2 rest =>
      cases h : (isPySpace c1 && isPySpace c2) with
      | true =>
        simp only [collapsePySpace, h, if_true]
        exact le_trans ih (by simp)
      | false =>
        simp only [collapsePySpace, h, Bool.false_eq_true, if_false,
          List.length_cons]
        simpa using ih

theorem collapsePySpace_mem :
    ∀ (l : List Char) (c : Char), c ∈ collapsePySpace l → c = ' ' ∨ c ∈ l := by
  intro l
  induction l with
  | nil => intro c hc; simp [collapsePySpace] at hc
  | cons c1 tail ih =>
    cases tail with
    | nil =>
      intro c hc
      cases h : isPySpace c1 <;> simp [collapsePySpace, h] at hc <;> simp [hc]
    | cons c2 rest =>
      intro c hc
      cases h : (isPySpace c1 && isPySpace c2) with
      | true =>
        simp only [collapsePySpace, h, if_true] at hc
        rcases ih c hc with h1 | h1
        · exact Or.inl h1
        · exact Or.inr (by simp [h1])
      | false =>
        simp only [collapsePySpace, h, Bool.false_eq_true, if_false,
          List.mem_cons] at hc
        rcases hc with h1 | h1
        · cases hs : isPySpace c1 with
          | true => rw [hs] at h1; simp at h1; exact Or.inl h1
          | false => rw [hs] at h1; simp at h1; exact Or.inr (by simp [h1])
        · rcases ih c h1 with h2 | h2
          · exact Or.inl h2
          · exact Or.inr (by simp [h2])

theorem pyStrip_sublist (l : List Char) : List.Sublist (pyStrip l) l := by
  unfold pyStrip
  have h1 : List.Sublist ((l.dropWhile isPySpace).reverse.dropWhile isPySpace)
      (l.dropWhile isPySpace).reverse := List.dropWhile_sublist _
  have h2 := h1.reverse
  simp only [List.reverse_reverse] at h2
  exact h2.trans (List.dropWhile_sublist _)

theorem pyStrip_length_le (l : List Char) : (pyStrip l).length ≤ l.length :=
  (pyStrip_sublist l).length_le

theorem pyStrip_subset (l : List Char) : ∀ c ∈ pyStrip l, c ∈ l :=
  fun _ hc => (pyStrip_sublist l).subset hc

theorem sanitizeSteps_length_le_100 (s : String) :
    (sanitizeSteps s).length ≤ 100 := by
  unfold sanitizeSteps
  by_cases ht : 100 < (sanitizeCollapsed s).length
  · simp only [ht, if_true]
    refine le_trans (pyStrip_length_le _) ?_
    simp only [List.length_append, List.length_take, List.length_cons,
      List.length_nil]
    omega
  · simp only [ht, if_false]
    push_neg at ht
    exact le_trans (pyStrip_length_le _) ht

theorem sanitizeSteps_chars (s : String) :
    ∀ c ∈ sanitizeSteps s, isInvalidFileChar c = false := by
  intro c hc
  unfold sanitizeSteps at hc
  have hc2 := pyStrip_subset _ c hc
  have hmem : c = '.' ∨ c ∈ sanitizeCollapsed s := by
    by_cases h : 100 < (sanitizeCollapsed s).length
    · simp only [h, if_true, List.mem_append] at hc2
      rcases hc2 with h1 | h1
      · exact Or.inr ((List.take_sublist _ _).subset h1)
      · have : c = '.' := by simpa using h1
        exact Or.inl this
    · simp only [h, if_false] at hc2
      exact Or.inr hc2
  rcases hmem with h1 | h1
  · subst h1; decide
  · rcases collapsePySpace_mem _ c h1 with h2 | h2
    · subst h2; decide
    · simp only [List.mem_map] at h2
      obtain ⟨a, _, ha⟩ := h2
      rw [← ha]
      unfold sanitizeChar2
      cases hi : isInvalidFileChar a with
      | true => simp [isInvalidFileChar]
      | false => simpa using hi

/-! ## Claim C5 -/

/-- C5: the Image Policy Filter `should_download_image` rejects a URL if
and only if the lower-cased path component of the parsed URL ends with one
of the configured extensions `.ico, .webp, .svg, .gif, .bmp, .tiff`; every
other URL is accepted. (The Lean embedding is a pure function; the only
effect of the Python original is a log line.) -/
theorem c5_policy_filter (u : String) :
    should_download_image u = false ↔
      ∃ ext ∈ IGNORED_EXTENSIONS,
        List.IsSuffix ext.data (pyLowerStr (urlparse u).path).data := by
  unfold should_download_image
  simp [endsWithStr, List.any_eq_true]

/-! ## Claim C6 -/

/-- C6: the Filename Sanitizer is total: for every input (including
`None`), the result is a non-empty string of length at most 100 containing
none of the characters `\ / * ? : " < > |`; a `None` input yields
`"untitled"`, and an input whose processing steps leave the empty string
also yields `"untitled"`. -/
theorem c6_sanitize_total_safe :
    (∀ x : Option String,
      sanitize_filename x ≠ "" ∧
      (sanitize_filename x).length ≤ 100 ∧
      ∀ c ∈ (sanitize_filename x).data, isInvalidFileChar c = false) ∧
    sanitize_filename none = "untitled" ∧
    (∀ s : String, sanitizeSteps s = [] →
      sanitize_filename (some s) = "untitled") := by
  refine ⟨?_, rfl, ?_⟩
  · intro x
    cases x with
    | none => exact ⟨by decide, by decide, by decide⟩
    | some s =>
      unfold sanitize_filename
      by_cases h : sanitizeSteps s = []
      · simp only [h, if_true]
        exact ⟨by decide, by decide, by decide⟩
      · simp only [h, if_false]
        refine ⟨?_, ?_, ?_⟩
        · intro hcon
          exact h (by simpa [String.ext_iff] using hcon)
        · show (sanitizeSteps s).length ≤ 100
          exact sanitizeSteps_length_le_100 s
        · exact sanitizeSteps_chars s
  · intro s h
    simp [sanitize_filename, h]

/-! ## Helper lemmas for `download_image` -/

theorem resolve_abs {b u : String}
    (h : startsWithStr u "http://" = true ∨ startsWithStr u "https://" = true) :
    resolve_img_url b u = u := by
  unfold resolve_img_url
  rcases h with h | h <;> simp [h]

theorem requests_get_http {g : HttpOracle} {url : String} {st : St}
    (h : startsWithStr url "http://" = true ∨
      startsWithStr url "https://" = true) :
    requests_get g url st =
      (g url, { st with netLog := st.netLog ++ [url] }) := by
  unfold requests_get
  rcases h with h | h <;> simp [h]

/-- A cold-cache, policy-accepted, successful download: the file is written
and the URL is fetched exactly once. -/
theorem download_image_cold (g : HttpOracle) (u b folder : String) (st : St)
    (body : String)
    (habs : startsWithStr u "http://" = true ∨ startsWithStr u "https://" = true)
    (hpol : should_download_image u = true)
    (hok : g u = Except.ok (200, body))
    (hmiss : img_cache_path folder u ∉ st.files) :
    download_image g u b folder st =
      (some (img_cache_path folder u),
        { files := st.files ++ [img_cache_path folder u],
          netLog := st.netLog ++ [u] }) := by
  unfold download_image download_image_body
  rw [resolve_abs habs, if_neg (not_not_intro hpol), if_neg hmiss,
    requests_get_http habs, hok]
  rfl

/-- A cache hit: the existing path is returned and the state is untouched
(no network fetch). -/
theorem download_image_hit (g : HttpOracle) (u b folder : String) (st : St)
    (habs : startsWithStr u "http://" = true ∨ startsWithStr u "https://" = true)
    (hpol : should_download_image u = true)
    (hhit : img_cache_path folder u ∈ st.files) :
    download_image g u b folder st = (some (img_cache_path folder u), st) := by
  unfold download_image download_image_body
  rw [resolve_abs habs, if_neg (not_not_intro hpol), if_pos hhit]

/-! ## Claim C3 -/

/-- C3: the Image Localizer is idempotent with respect to the on-disk
cache: starting from a cache that does not hold the file, two calls with
the same resolved URL and the same image folder perform exactly one network
fetch (the first call appends the single URL to the network log, the second
call — a cache hit — leaves the state untouched), and both calls return the
same local path. -/
theorem c3_localizer_idempotent (g : HttpOracle) (u b1 b2 folder : String)
    (st : St) (body : String)
    (habs : startsWithStr u "http://" = true ∨ startsWithStr u "https://" = true)
    (hpol : should_download_image u = true)
    (hok : g u = Except.ok (200, body))
    (hmiss : img_cache_path folder u ∉ st.files) :
    (download_image g u b1 folder st).1 = some (img_cache_path folder u) ∧
    (download_image g u b2 folder
        (download_image g u b1 folder st).2).1 =
      some (img_cache_path folder u) ∧
    (download_image g u b1 folder st).2.netLog = st.netLog ++ [u] ∧
    (download_image g u b2 folder (download_image g u b1 folder st).2).2 =
      (download_image g u b1 folder st).2 := by
  rw [download_image_cold g u b1 folder st body habs hpol hok hmiss]
  rw [download_image_hit g u b2 folder _ habs hpol (by simp)]
  exact ⟨rfl, rfl, rfl, rfl⟩

/-- Witness for C3 at a concrete URL, folder and transport. -/
theorem c3_witness :
    (download_image (fun _ => Except.ok (200, "B")) "http://x/i.png"
        "https://ex.com/p" "/out/images" ⟨[], []⟩).1 =
      some (img_cache_path "/out/images" "http://x/i.png") ∧
    (download_image (fun _ => Except.ok (200, "B")) "http://x/i.png"
        "https://ex.com/q" "/out/images"
        (download_image (fun _ => Except.ok (200, "B")) "http://x/i.png"
          "https://ex.com/p" "/out/images" ⟨[], []⟩).2).1 =
      some (img_cache_path "/out/images" "http://x/i.png") ∧
    (download_image (fun _ => Except.ok (200, "B")) "http://x/i.png"
        "https://ex.com/p" "/out/images" ⟨[], []⟩).2.netLog =
      ([] : List String) ++ ["http://x/i.png"] ∧
    (download_image (fun _ => Except.ok (200, "B")) "http://x/i.png"
        "https://ex.com/q" "/out/images"
        (download_image (fun _ => Except.ok (200, "B")) "http://x/i.png"
          "https://ex.com/p" "/out/images" ⟨[], []⟩).2).2 =
      (download_image (fun _ => Except.ok (200, "B")) "http://x/i.png"
        "https://ex.com/p" "/out/images" ⟨[], []⟩).2 :=
  c3_localizer_idempotent (fun _ => Except.ok (200, "B")) "http://x/i.png"
    "https://ex.com/p" "https://ex.com/q" "/out/images" ⟨[], []⟩ "B"
    (Or.inl rfl) (by decide) rfl (by simp)

/-! ## Claim C4 -/

/-- C4: the local file name is deterministic: it is the md5 hex digest of
the resolved absolute URL string followed by the URL's own path extension
when that extension is present and at most 5 characters long, and by
`.jpg` otherwise; moreover every path the Image Localizer returns is the
image folder joined with exactly that file name (so the same resolved URL
always maps to the same local file name). -/
theorem c4_local_filename :
    (∀ url : String,
      img_filename url = md5Hex url ++
        (if (os_path_splitext (urlparse url).path).2 ≠ "" ∧
            (os_path_splitext (urlparse url).path).2.length ≤ 5
         then (os_path_splitext (urlparse url).path).2 else ".jpg")) ∧
    (∀ (g : HttpOracle) (u b folder : String) (st : St) (p : String),
      (download_image g u b folder st).1 = some p →
      p = os_path_join folder (img_filename (resolve_img_url b u))) := by
  constructor
  · intro url
    simp only [img_filename]
    by_cases h1 : (os_path_splitext (urlparse url).path).2 = ""
    · rw [if_pos (Or.inl h1), if_neg (by simp [h1])]
    · by_cases h2 : 5 < (os_path_splitext (urlparse url).path).2.length
      · rw [if_pos (Or.inr h2), if_neg (by omega)]
      · rw [if_neg (by simp [h1, h2]), if_pos ⟨h1, by omega⟩]
  · intro g u b folder st p h
    unfold download_image download_image_body at h
    by_cases hpol : should_download_image (resolve_img_url b u) = true
    · rw [if_neg (not_not_intro hpol)] at h
      by_cases hmem : img_cache_path folder (resolve_img_url b u) ∈ st.files
      · rw [if_pos hmem] at h
        simp only [Option.some.injEq] at h
        exact h.symm
      · rw [if_neg hmem] at h
        rcases hreq : requests_get g (resolve_img_url b u) st with ⟨res, st2⟩
        rw [hreq] at h
        cases res with
        | error e => simp at h
        | ok sb =>
          rcases sb with ⟨status, body2⟩
          dsimp only at h
          by_cases hs : status = 200
          · rw [if_pos hs] at h
            dsimp only at h
            simp only [Option.some.injEq] at h
            exact h.symm
          · rw [if_neg hs] at h
            dsimp only at h
            simp at h
    · rw [if_pos hpol] at h
      simp at h

/-- Witness for C4's localizer part at a concrete successful download. -/
theorem c4_witness :
    img_cache_path "/out/images" "http://x/i.png" =
      os_path_join "/out/images"
        (img_filename (resolve_img_url "https://ex.com/p" "http://x/i.png")) := by
  refine c4_local_filename.2 (fun _ => Except.ok (200, "B")) "http://x/i.png"
    "https://ex.com/p" "/out/images" ⟨[], []⟩ _ ?_
  rw [download_image_cold (fun _ => Except.ok (200, "B")) "http://x/i.png"
    "https://ex.com/p" "/out/images" ⟨[], []⟩ "B" (Or.inl rfl) (by decide) rfl
    (by simp)]

/-! ## URL-scheme lemmas for data URIs -/

theorem urlsplit_first (u d : String) :
    (urlsplit u d).1 = (urlsplitScheme u.data d).1 := rfl

theorem urlparseWith_scheme (u d : String) :
    (urlparseWith u d).scheme = (urlsplit u d).1 := by
  simp only [urlparseWith]
  split <;> rfl

theorem urlsplitScheme_data (tail : List Char) (d : String) :
    urlsplitScheme ('d' :: 'a' :: 't' :: 'a' :: ':' :: tail) d =
      ("data", tail) := rfl

theorem startsWith_data_decomp {u : String}
    (h : startsWithStr u "data:" = true) :
    ∃ tail, u.data = 'd' :: 'a' :: 't' :: 'a' :: ':' :: tail :=
  ⟨u.data.drop ("data:".data.length),
    startsWithChars_eq_append "data:".data u.data h⟩

theorem scheme_of_data {u : String} (h : startsWithStr u "data:" = true)
    (d : String) : (urlparseWith u d).scheme = "data" := by
  obtain ⟨tail, ht⟩ := startsWith_data_decomp h
  rw [urlparseWith_scheme, urlsplit_first, ht, urlsplitScheme_data]

theorem urljoin_not_relative {b u : String} (hu : u ≠ "")
    (h : ¬ uses_relative.contains
      (urlparseWith u (urlparseWith b "").scheme).scheme = true) :
    urljoin b u = u := by
  simp only [urljoin]
  by_cases hb : b = ""
  · rw [if_pos hb]
  · rw [if_neg hb, if_neg hu, if_pos (Or.inr h)]

theorem urljoin_data {b u : String} (h : startsWithStr u "data:" = true) :
    urljoin b u = u := by
  have hu : u ≠ "" := by
    intro he
    rw [he] at h
    exact absurd h (by decide)
  exact urljoin_not_relative hu (by rw [scheme_of_data h]; decide)

theorem data_not_http {u : String} (h : startsWithStr u "data:" = true) :
    startsWithStr u "http://" = false ∧ startsWithStr u "https://" = false := by
  obtain ⟨tail, ht⟩ := startsWith_data_decomp h
  constructor <;> (unfold startsWithStr; rw [ht]; rfl)

theorem resolve_data {b u : String} (h : startsWithStr u "data:" = true) :
    resolve_img_url b u = u := by
  obtain ⟨h1, h2⟩ := data_not_http h
  unfold resolve_img_url
  rw [if_neg (by simp [h1, h2]), urljoin_data h]

theorem requests_get_invalid {g : HttpOracle} {u : String} {st : St}
    (h1 : startsWithStr u "http://" = false)
    (h2 : startsWithStr u "https://" = false) :
    requests_get g u st = (Except.error ⟨"InvalidSchema"⟩, st) := by
  unfold requests_get
  simp [h1, h2]

/-! ## Claim C7 -/

/-- C7: given a data-URI image URL (and a cache not already holding the
file name computed for it), the Image Localizer returns `None` and the
state — in particular the network log — is completely unchanged: no network
fetch is attempted (`requests` has no adapter for the `data:` scheme and
raises `InvalidSchema` before any network activity; `urljoin` leaves a
`data:` URL unchanged because `data` is not a relative-capable scheme). -/
theorem c7_data_uri_no_fetch (g : HttpOracle) (u b folder : String) (st : St)
    (hdata : startsWithStr u "data:" = true)
    (hmiss : img_cache_path folder u ∉ st.files) :
    download_image g u b folder st = (none, st) := by
  obtain ⟨h1, h2⟩ := data_not_http hdata
  unfold download_image download_image_body
  rw [resolve_data hdata]
  by_cases hpol : should_download_image u = true
  · rw [if_neg (not_not_intro hpol), if_neg hmiss,
      requests_get_invalid h1 h2]
  · rw [if_pos hpol]

/-- Witness for C7 at a concrete data URI. -/
theorem c7_witness :
    download_image (fun _ => Except.ok (200, "B"))
      "data:image/png;base64,AAAA" "https://ex.com/p" "/out/images"
      ⟨[], []⟩ = (none, ⟨[], []⟩) :=
  c7_data_uri_no_fetch (fun _ => Except.ok (200, "B"))
    "data:image/png;base64,AAAA" "https://ex.com/p" "/out/images" ⟨[], []⟩
    rfl (by simp)

/-- Witness for C6's becomes-empty clause at a concrete whitespace input. -/
theorem c6_witness :
    sanitizeSteps " " = [] ∧ sanitize_filename (some " ") = "untitled" :=
  ⟨by decide, c6_sanitize_total_safe.2.2 " " (by decide)⟩

/-! ## Pipeline lemmas -/

/-- A 200-status page fetch always reaches the end of the pipeline and
produces a `some` document, title and path — whatever the image transport
does (every image failure is caught inside `download_image`). -/
theorem pipeline_200 (o : Oracles) (url save_dir : String)
    (imf : Option String) (st : St) (body : String)
    (hsch : startsWithStr url "http://" = true ∨
      startsWithStr url "https://" = true)
    (hok : o.httpGet url = Except.ok (200, body)) :
    (fetch_and_convert_to_markdown o url save_dir imf st).1.1.isSome = true ∧
    (fetch_and_convert_to_markdown o url save_dir imf st).1.2.1.isSome = true ∧
    (fetch_and_convert_to_markdown o url save_dir imf st).1.2.2.isSome = true := by
  refine ⟨?_, ?_, ?_⟩ <;>
  · simp only [fetch_and_convert_to_markdown]
    rw [requests_get_http hsch, hok]
    dsimp only
    rw [if_neg (by simp)]
    rfl

/-! ## Claim C2 -/

/-- C2 (amended): the page fetch fails exactly on a status other than 200:
whenever the transport returns a status `s` without raising, the pipeline
returns `(None, None, None)` if `s ≠ 200` — including 2xx statuses such as
201 or 204 — and proceeds past the fetch step to a `some` document when
`s = 200`. -/
theorem c2_fetch_only_200 (o : Oracles) (url save_dir : String)
    (imf : Option String) (st : St) (status : Nat) (body : String)
    (hsch : startsWithStr url "http://" = true ∨
      startsWithStr url "https://" = true)
    (hresp : o.httpGet url = Except.ok (status, body)) :
    (status ≠ 200 →
      (fetch_and_convert_to_markdown o url save_dir imf st).1 =
        (none, none, none)) ∧
    (status = 200 →
      (fetch_and_convert_to_markdown o url save_dir imf st).1.1.isSome = true) := by
  constructor
  · intro hne
    simp only [fetch_and_convert_to_markdown]
    rw [requests_get_http hsch, hresp]
    dsimp only
    rw [if_pos hne]
  · intro h200
    subst h200
    exact (pipeline_200 o url save_dir imf st body hsch hresp).1

/-- Witness for C2 (amended) at a concrete 404 fetch. -/
theorem c2_witness :
    (fetch_and_convert_to_markdown
      { httpGet := fun _ => Except.ok (404, "not found"),
        parseHtml := fun _ => [], render := fun _ => "",
        markdownifyATX := fun _ => "", timestamp := "20240101_120000" }
      "http://ex.com/page" "/out" none ⟨[], []⟩).1 = (none, none, none) :=
  (c2_fetch_only_200
    { httpGet := fun _ => Except.ok (404, "not found"),
      parseHtml := fun _ => [], render := fun _ => "",
      markdownifyATX := fun _ => "", timestamp := "20240101_120000" }
    "http://ex.com/page" "/out" none ⟨[], []⟩ 404 "not found"
    (Or.inl rfl) rfl).1 (by decide)

/-- Counterexample to C2 as stated: 201 is a 2xx success status, yet the
pipeline returns `(None, None, None)` for it instead of proceeding, because
the source tests `status_code != 200`. -/
theorem c2_counterexample :
    (200 ≤ 201 ∧ 201 < 300) ∧
    (fetch_and_convert_to_markdown
      { httpGet := fun _ => Except.ok (201, "<html></html>"),
        parseHtml := fun _ => [], render := fun _ => "",
        markdownifyATX := fun _ => "", timestamp := "20240101_120000" }
      "http://ex.com/page" "/out" none ⟨[], []⟩).1 = (none, none, none) :=
  ⟨by decide, rfl⟩

/-! ## Claim C10 -/

/-- C10: the Image Localizer never raises: whenever its `try`-block body
escapes with an exception (URL resolution, transport, or write), the
function catches it and returns `None` with the state reached so far; and
consequently a page run whose page fetch succeeds with status 200 always
produces a `some` document, no matter how the transport behaves on image
URLs — a single failing image can never abort the surrounding pipeline. -/
theorem c10_localizer_never_raises :
    (∀ (g : HttpOracle) (u b f : String) (st : St) (e : PyErr) (st' : St),
      download_image_body g u b f st = Except.error (e, st') →
      download_image g u b f st = (none, st')) ∧
    (∀ (o : Oracles) (url save_dir : String) (imf : Option String)
        (st : St) (body : String),
      startsWithStr url "http://" = true ∨
        startsWithStr url "https://" = true →
      o.httpGet url = Except.ok (200, body) →
      (fetch_and_convert_to_markdown o url save_dir imf st).1.1.isSome = true) := by
  constructor
  · intro g u b f st e st' h
    unfold download_image
    rw [h]
  · intro o url save_dir imf st body hsch hok
    exact (pipeline_200 o url save_dir imf st body hsch hok).1

/-- Witness for C10: a transport that always times out is caught (returning
`None` with the fetch logged), and a pipeline whose images all fail still
returns a `some` document. -/
theorem c10_witness :
    download_image (fun _ => Except.error ⟨"timeout"⟩) "http://x/i.png"
      "https://ex.com/p" "/out/images" ⟨[], []⟩ =
      (none, ⟨[], ["http://x/i.png"]⟩) ∧
    (fetch_and_convert_to_markdown
      { httpGet := fun u => if u = "http://ex.com/page" then
          Except.ok (200, "H") else Except.error ⟨"timeout"⟩,
        parseHtml := fun _ => [Node.elem "img" [("src", "http://x/i.png")] []],
        render := fun _ => "", markdownifyATX := fun _ => "",
        timestamp := "20240101_120000" }
      "http://ex.com/page" "/out" none ⟨[], []⟩).1.1.isSome = true :=
  ⟨c10_localizer_never_raises.1 (fun _ => Except.error ⟨"timeout"⟩)
      "http://x/i.png" "https://ex.com/p" "/out/images" ⟨[], []⟩
      ⟨"timeout"⟩ ⟨[], ["http://x/i.png"]⟩ rfl,
    c10_localizer_never_raises.2
      { httpGet := fun u => if u = "http://ex.com/page" then
          Except.ok (200, "H") else Except.error ⟨"timeout"⟩,
        parseHtml := fun _ => [Node.elem "img" [("src", "http://x/i.png")] []],
        render := fun _ => "", markdownifyATX := fun _ => "",
        timestamp := "20240101_120000" }
      "http://ex.com/page" "/out" none ⟨[], []⟩ "H" (Or.inl rfl) (by rfl)⟩

/-! ## Claim C8 -/

theorem selectLoop_eq_findSome (soup : Node) :
    ∀ sels : List String, selectLoop soup sels =
      sels.findSome? (fun sel => select_one sel soup) := by
  intro sels
  induction sels with
  | nil => rfl
  | cons s rest ih =>
    simp only [selectLoop, List.findSome?_cons]
    cases select_one s soup <;> simp [ih]

/-- C8: the Main Content Selector tries the ordered selector list
`article, main, .main-content, .post-content, .entry-content, .content,
#content` and returns the first selector's match that is non-empty (in bs4
a found `Tag` is always truthy, so "non-empty match" is "`select_one`
found an element"); when no selector matches it falls back to the `body`
element, and when no `body` exists, to the entire parsed tree. The
selector is a pure function of the tree, so the same input tree always
yields the same selection. Stated as equality with `selectMainContentSpec`,
the selector modelled from the specification's words. -/
theorem c8_main_content_selector (soup : Node) :
    select_main_content soup = selectMainContentSpec soup := by
  unfold select_main_content selectMainContentSpec
  rw [selectLoop_eq_findSome]
  cases h : content_selectors.findSome? (fun sel => select_one sel soup) with
  | some c => rfl
  | none =>
    cases hb : soup_find_tag "body" soup with
    | some b => rfl
    | none => rfl

/-! ## Claim C1 -/

mutual
/-- No element of the tree (itself included) matches a noise selector. -/
def treeNoNoise : Node → Bool
  | Node.text _ => true
  | Node.elem t a c => !(matchesAnySel noise_selectors t a) && forestNoNoise c

/-- No element of the forest matches a noise selector. -/
def forestNoNoise : List Node → Bool
  | [] => true
  | n :: rest => treeNoNoise n && forestNoNoise rest
end

mutual
theorem cleanNode_noNoise : ∀ (n m : Node),
    cleanNode n = some m → treeNoNoise m = true
  | Node.text s, m, h => by
    simp only [cleanNode, Option.some.injEq] at h
    rw [← h]; rfl
  | Node.elem t a c, m, h => by
    unfold cleanNode at h
    by_cases hm : matchesAnySel noise_selectors t a = true
    · rw [if_pos hm] at h
      exact Option.noConfusion h
    · rw [if_neg hm] at h
      simp only [Option.some.injEq] at h
      rw [← h]
      simp only [treeNoNoise, Bool.and_eq_true, Bool.not_eq_true']
      exact ⟨by simpa using hm, cleanList_noNoise c⟩

theorem cleanList_noNoise : ∀ (l : List Node),
    forestNoNoise (cleanList l) = true
  | [] => rfl
  | n :: rest => by
    unfold cleanList
    cases hc : cleanNode n with
    | some m =>
      simp only [forestNoNoise, Bool.and_eq_true]
      exact ⟨cleanNode_noNoise n m hc, cleanList_noNoise rest⟩
    | none => exact cleanList_noNoise rest
end

mutual
theorem findFirstNode_noNoise :
    ∀ (p : String → List (String × String) → Bool) (n m : Node),
      treeNoNoise n = true → findFirstNode p n = some m →
      treeNoNoise m = true
  | p, Node.text s, m, hn, h => by
    simp [findFirstNode] at h
  | p, Node.elem t a c, m, hn, h => by
    unfold findFirstNode at h
    by_cases hp : p t a = true
    · rw [if_pos hp] at h
      simp only [Option.some.injEq] at h
      rw [← h]; exact hn
    · rw [if_neg hp] at h
      have hc : forestNoNoise c = true := by
        simp only [treeNoNoise, Bool.and_eq_true] at hn
        exact hn.2
      exact findFirstList_noNoise p c m hc h

theorem findFirstList_noNoise :
    ∀ (p : String → List (String × String) → Bool) (l : List Node) (m : Node),
      forestNoNoise l = true → findFirstList p l = some m →
      treeNoNoise m = true
  | p, [], m, hn, h => by simp [findFirstList] at h
  | p, n :: rest, m, hn, h => by
    unfold findFirstList at h
    have hn1 : treeNoNoise n = true ∧ forestNoNoise rest = true := by
      simpa only [forestNoNoise, Bool.and_eq_true] using hn
    cases hf : findFirstNode p n with
    | some r =>
      rw [hf] at h
      simp only [Option.some.injEq] at h
      rw [← h]
      exact findFirstNode_noNoise p n r hn1.1 hf
    | none =>
      rw [hf] at h
      exact findFirstList_noNoise p rest m hn1.2 h
end

theorem select_one_noNoise {sel : String} {soup m : Node}
    (hs : treeNoNoise soup = true) (h : select_one sel soup = some m) :
    treeNoNoise m = true := by
  cases soup with
  | text s => simp [select_one] at h
  | elem t a c =>
    have hc : forestNoNoise c = true := by
      simp only [treeNoNoise, Bool.and_eq_true] at hs
      exact hs.2
    exact findFirstList_noNoise _ c m hc h

theorem soup_find_tag_noNoise {name : String} {soup m : Node}
    (hs : treeNoNoise soup = true) (h : soup_find_tag name soup = some m) :
    treeNoNoise m = true := by
  cases soup with
  | text s => simp [soup_find_tag] at h
  | elem t a c =>
    have hc : forestNoNoise c = true := by
      simp only [treeNoNoise, Bool.and_eq_true] at hs
      exact hs.2
    exact findFirstList_noNoise _ c m hc h

theorem selectLoop_noNoise {soup m : Node}
    (hs : treeNoNoise soup = true) :
    ∀ sels : List String, selectLoop soup sels = some m →
      treeNoNoise m = true := by
  intro sels
  induction sels with
  | nil => intro h; simp [selectLoop] at h
  | cons s rest ih =>
    intro h
    unfold selectLoop at h
    cases ho : select_one s soup with
    | some c =>
      rw [ho] at h
      simp only [Option.some.injEq] at h
      rw [← h]
      exact select_one_noNoise hs ho
    | none =>
      rw [ho] at h
      exact ih h

theorem select_main_content_noNoise {soup : Node}
    (hs : treeNoNoise soup = true) :
    treeNoNoise (select_main_content soup) = true := by
  unfold select_main_content
  cases hl : selectLoop soup content_selectors with
  | some c => exact selectLoop_noNoise hs content_selectors hl
  | none =>
    cases hb : soup_find_tag "body" soup with
    | some b => exact soup_find_tag_noNoise hs hb
    | none => exact hs

/-- C1 (amended): in the source, the cleaning step runs only after tree
image rewriting, so it cannot shield the Image Localizer (see the
counterexample); but cleaning does precede content selection: for every
parsed document, the cleaned tree is free of
script/style/iframe/nav/footer/sidebar/advertisement/ads nodes, and hence
so is the subtree the Main Content Selector returns. -/
theorem c1_clean_precedes_selection (cs : List Node) :
    treeNoNoise (clean_soup (Node.elem "[document]" [] cs)) = true ∧
    treeNoNoise
      (select_main_content (clean_soup (Node.elem "[document]" [] cs))) = true := by
  have hclean : treeNoNoise (clean_soup (Node.elem "[document]" [] cs)) = true := by
    simp only [clean_soup, treeNoNoise, Bool.and_eq_true]
    exact ⟨by decide, cleanList_noNoise cs⟩
  exact ⟨hclean, select_main_content_noNoise hclean⟩

/-- Counterexample to C1 as stated: in the pipeline, tree image rewriting
(line 213 of the source) runs before the noise-node removal (lines
216–217). For a page whose only image sits inside a `nav` element, the
Image Localizer is invoked on it and the image URL is fetched: the network
log of the run is `[page URL, image URL]`, not `[page URL]`. -/
theorem c1_counterexample :
    ((fetch_and_convert_to_markdown
      { httpGet := fun u => if u = "http://ex.com/page" then
          Except.ok (200, "H") else Except.ok (200, "IMG"),
        parseHtml := fun _ => [Node.elem "html" [] [Node.elem "body" [] [
          Node.elem "nav" [] [Node.elem "img" [("src", "http://x/a.png")] []]]]],
        render := fun _ => "", markdownifyATX := fun _ => "",
        timestamp := "20240101_120000" }
      "http://ex.com/page" "/out" none ⟨[], []⟩).2).netLog =
      ["http://ex.com/page", "http://x/a.png"] := by
  rfl

/-! ## Claim C9: tokenizer losslessness -/

theorem tokAux_flatten : ∀ (fuel : Nat) (l acc : List Char), l.length ≤ fuel →
    ((tokAux fuel acc l).map mdTokenText).flatten = acc.reverse ++ l := by
  intro fuel
  induction fuel with
  | zero =>
    intro l acc h
    cases l with
    | nil =>
      by_cases ha : acc = [] <;> simp [tokAux, ha, mdTokenText]
    | cons c cs => simp at h
  | succ n ih =>
    intro l acc h
    cases l with
    | nil =>
      by_cases ha : acc = [] <;> simp [tokAux, ha, mdTokenText]
    | cons c cs =>
      simp only [tokAux]
      cases hm : matchMdImageAt (c :: cs) with
      | some r =>
        obtain ⟨alt, url, rest⟩ := r
        have hlen := matchMdImageAt_length hm
        have hle : rest.length ≤ n := by
          simp only [List.length_cons] at hlen h
          omega
        have heq := matchMdImageAt_eq hm
        have hrec := ih rest [] hle
        simp only [List.reverse_nil, List.nil_append] at hrec
        by_cases ha : acc = []
        · simp only [ha, if_true, List.nil_append, List.map_cons,
            List.flatten_cons, hrec, List.reverse_nil]
          rw [heq]
        · simp only [ha, if_false, List.cons_append, List.nil_append,
            List.map_append, List.map_cons, List.map_nil, List.flatten_append,
            List.flatten_cons, hrec, List.flatten_nil, mdTokenText,
            List.append_nil]
          rw [heq]
          simp [mdTokenText, List.append_assoc]
      | none =>
        have hrec := ih cs (c :: acc) (by
          simp only [List.length_cons] at h; omega)
        rw [hrec]
        simp

theorem tokenizeMd_flatten (l : List Char) :
    ((tokenizeMd l).map mdTokenText).flatten = l := by
  simpa using tokAux_flatten l.length l [] (le_refl _)

/-! ## Claim C9: the rewriters when localization fails -/

theorem download_image_fail_all {g : HttpOracle}
    (hg : ∀ v, ∃ e, g v = Except.error e) (u b f : String) (st : St)
    (hf : st.files = []) :
    (download_image g u b f st).1 = none ∧
    (download_image g u b f st).2.files = [] := by
  unfold download_image download_image_body
  by_cases hpol : should_download_image (resolve_img_url b u) = true
  · rw [if_neg (not_not_intro hpol), if_neg (by rw [hf]; simp)]
    unfold requests_get
    by_cases hs : (startsWithStr (resolve_img_url b u) "http://" ||
        startsWithStr (resolve_img_url b u) "https://") = true
    · rw [if_pos hs]
      obtain ⟨e, he⟩ := hg (resolve_img_url b u)
      rw [he]
      exact ⟨rfl, hf⟩
    · rw [if_neg hs]
      exact ⟨rfl, hf⟩
  · rw [if_pos hpol]
    exact ⟨rfl, hf⟩

theorem processImgAttrs_fail {g : HttpOracle}
    (hg : ∀ v, ∃ e, g v = Except.error e) (b f m : String)
    (tag : String) (attrs : List (String × String)) (st : St)
    (hf : st.files = []) :
    (processImgAttrs g b f m tag attrs st).1 = attrs ∧
    (processImgAttrs g b f m tag attrs st).2.files = [] := by
  unfold processImgAttrs
  by_cases ht : tag = "img"
  · rw [if_pos ht]
    cases hsrc : getAttr attrs "src" with
    | none => exact ⟨rfl, hf⟩
    | some src =>
      dsimp only
      by_cases hne : src ≠ ""
      · rw [if_pos hne]
        by_cases hd : startsWithStr src "data:" = true
        · rw [if_pos hd]
          exact ⟨rfl, hf⟩
        · rw [if_neg hd]
          have hfail := download_image_fail_all hg src b f st hf
          rcases hdl : (download_image g src b f st).1 with _ | lp
          · exact ⟨rfl, hfail.2⟩
          · rw [hdl] at hfail
            exact absurd hfail.1 (by simp)
      · rw [if_neg hne]
        exact ⟨rfl, hf⟩
  · rw [if_neg ht]
    exact ⟨rfl, hf⟩

mutual
theorem processImagesNode_fail {g : HttpOracle}
    (hg : ∀ v, ∃ e, g v = Except.error e) (b f m : String) :
    ∀ (n : Node) (st : St), st.files = [] →
      (processImagesNode g b f m n st).1 = n ∧
      (processImagesNode g b f m n st).2.files = []
  | Node.text s, st, hf => ⟨rfl, hf⟩
  | Node.elem tag attrs children, st, hf => by
    have ha := processImgAttrs_fail hg b f m tag attrs st hf
    have hc := processImagesList_fail hg b f m children
      (processImgAttrs g b f m tag attrs st).2 ha.2
    simp only [processImagesNode]
    exact ⟨by rw [ha.1, hc.1], hc.2⟩

theorem processImagesList_fail {g : HttpOracle}
    (hg : ∀ v, ∃ e, g v = Except.error e) (b f m : String) :
    ∀ (l : List Node) (st : St), st.files = [] →
      (processImagesList g b f m l st).1 = l ∧
      (processImagesList g b f m l st).2.files = []
  | [], st, hf => ⟨rfl, hf⟩
  | n :: rest, st, hf => by
    have h1 := processImagesNode_fail hg b f m n st hf
    have h2 := processImagesList_fail hg b f m rest
      (processImagesNode g b f m n st).2 h1.2
    simp only [processImagesList]
    exact ⟨by rw [h1.1, h2.1], h2.2⟩
end

theorem mdTokensOut_fail {g : HttpOracle}
    (hg : ∀ v, ∃ e, g v = Except.error e) (b f m : String) :
    ∀ (toks : List MdToken) (st : St), st.files = [] →
      (mdTokensOut g b f m toks st).1 = (toks.map mdTokenText).flatten ∧
      (mdTokensOut g b f m toks st).2.files = []
  | [], st, hf => ⟨rfl, hf⟩
  | MdToken.plain s :: rest, st, hf => by
    have hr := mdTokensOut_fail hg b f m rest st hf
    simp only [mdTokensOut, List.map_cons, List.flatten_cons, mdTokenText]
    exact ⟨by rw [hr.1], hr.2⟩
  | MdToken.img alt url :: rest, st, hf => by
    have hfail := download_image_fail_all hg (String.mk url) b f st hf
    have hr := mdTokensOut_fail hg b f m rest
      (download_image g (String.mk url) b f st).2 hfail.2
    simp only [mdTokensOut, List.map_cons, List.flatten_cons]
    rcases hdl : (download_image g (String.mk url) b f st).1 with _ | lp
    · exact ⟨by rw [hr.1], hr.2⟩
    · rw [hdl] at hfail
      exact absurd hfail.1 (by simp)

/-! ## Claim C9: single-match success rewriting -/

theorem startsWithChars_self_append (p x : List Char) :
    startsWithChars p (p ++ x) = true := by
  induction p with
  | nil => rfl
  | cons a ps ih => simp [startsWithChars, ih]

theorem parenRun_clean : ∀ (t : List Char), (∀ c ∈ t, ¬ c = ')') →
    parenRun (t ++ [')']) = some (t, []) := by
  intro t
  induction t with
  | nil => intro _; rfl
  | cons c t' ih =>
    intro h
    have hc : ¬ c = ')' := h c (List.mem_cons_self c t')
    have ih' := ih (fun x hx => h x (List.mem_cons_of_mem c hx))
    rw [List.cons_append]
    unfold parenRun
    rw [if_neg hc, ih']

theorem matchSchemeUrl_clean (pre t : List Char) (hne : t ≠ [])
    (hnp : ∀ c ∈ t, ¬ c = ')') :
    matchSchemeUrl pre ((pre ++ t) ++ [')']) = some (pre ++ t, []) := by
  unfold matchSchemeUrl
  rw [List.append_assoc,
    if_pos (startsWithChars_self_append pre (t ++ [')'])), List.drop_left,
    parenRun_clean t hnp]
  dsimp only
  rw [if_neg hne]

theorem matchMdUrl_clean_http (t : List Char) (hne : t ≠ [])
    (hnp : ∀ c ∈ t, ¬ c = ')') :
    matchMdUrl (("http://".data ++ t) ++ [')']) =
      some ("http://".data ++ t, []) := by
  unfold matchMdUrl
  have h1 : startsWithChars "https://".data
      (("http://".data ++ t) ++ [')']) = false := rfl
  have h2 : matchSchemeUrl "https://".data
      (("http://".data ++ t) ++ [')']) = none := by
    unfold matchSchemeUrl
    rw [if_neg (by rw [h1]; simp)]
  rw [h2, matchSchemeUrl_clean "http://".data t hne hnp]

theorem matchMdUrl_clean_https (t : List Char) (hne : t ≠ [])
    (hnp : ∀ c ∈ t, ¬ c = ')') :
    matchMdUrl (("https://".data ++ t) ++ [')']) =
      some ("https://".data ++ t, []) := by
  unfold matchMdUrl
  rw [matchSchemeUrl_clean "https://".data t hne hnp]

theorem matchMdAlt_clean : ∀ (alt acc tail u : List Char),
    (∀ c ∈ alt, ¬ c = ']' ∧ ¬ c = '\n') →
    matchMdUrl tail = some (u, []) →
    matchMdAlt acc (alt ++ (']' :: '(' :: tail)) =
      some (acc.reverse ++ alt, u, []) := by
  intro alt
  induction alt with
  | nil =>
    intro acc tail u _ hu
    simp only [List.nil_append, matchMdAlt, tryCloseAlt, and_self, if_true,
      hu, Option.map_some', List.append_nil]
  | cons a alt' ih =>
    intro acc tail u hcl hu
    have ha := hcl a (List.mem_cons_self a alt')
    have htry : tryCloseAlt acc (a :: (alt' ++ (']' :: '(' :: tail))) = none := by
      rcases alt' with _ | ⟨x, xs⟩ <;> simp [tryCloseAlt, ha.1]
    rw [List.cons_append]
    unfold matchMdAlt
    rw [htry, if_neg ha.2,
      ih (a :: acc) tail u (fun c hc => hcl c (List.mem_cons_of_mem a hc)) hu]
    simp

theorem matchMdImageAt_img (alt u : List Char)
    (hcl : ∀ c ∈ alt, ¬ c = ']' ∧ ¬ c = '\n')
    (hu : matchMdUrl (u ++ [')']) = some (u, [])) :
    matchMdImageAt (mdTokenText (MdToken.img alt u)) = some (alt, u, []) := by
  show matchMdImageAt ('!' :: '[' :: ((alt ++ (']' :: '(' :: u)) ++ [')'])) = _
  unfold matchMdImageAt
  dsimp only
  rw [if_pos ⟨rfl, rfl⟩]
  have hshape : (alt ++ (']' :: '(' :: u)) ++ [')'] =
      alt ++ (']' :: '(' :: (u ++ [')'])) := by
    simp [List.append_assoc]
  rw [hshape]
  have := matchMdAlt_clean alt [] (u ++ [')']) u hcl hu
  simpa using this

theorem tokenizeMd_img (alt u : List Char)
    (hcl : ∀ c ∈ alt, ¬ c = ']' ∧ ¬ c = '\n')
    (hu : matchMdUrl (u ++ [')']) = some (u, [])) :
    tokenizeMd (mdTokenText (MdToken.img alt u)) = [MdToken.img alt u] := by
  have hm : matchMdImageAt
      ('!' :: '[' :: ((alt ++ (']' :: '(' :: u)) ++ [')'])) =
      some (alt, u, []) := matchMdImageAt_img alt u hcl hu
  have hshape : (alt ++ (']' :: '(' :: u)) ++ [')'] =
      alt ++ (']' :: '(' :: (u ++ [')'])) := by
    simp [List.append_assoc]
  rw [hshape] at hm
  show tokAux ((alt ++ (']' :: '(' :: u)) ++ [')']).length.succ.succ []
    ('!' :: '[' :: ((alt ++ (']' :: '(' :: u)) ++ [')'])) = _
  rw [hshape]
  simp [tokAux, hm]

/-! ## Claim C9 -/

/-- C9: both image rewriters touch nothing but the URL of a successfully
localized reference. (1) The `re.sub` decomposition is lossless: the match
and literal pieces concatenate back to the input, so text outside matched
image references can never change. (2)–(3) When localization fails
everywhere (a transport that always raises, cold cache), the Text Image
Rewriter returns its input verbatim and the Tree Image Rewriter returns
the tree unchanged, every `src` attribute included. (4) When localization
succeeds on a well-formed image reference `![alt](url)`, the rewriter
replaces only the URL inside the match, reproducing the alt text exactly
and the path relative to the output file's directory. -/
theorem c9_rewriters_frame :
    (∀ s : String,
      String.mk (((tokenizeMd s.data).map mdTokenText).flatten) = s) ∧
    (∀ (g : HttpOracle) (b f m : String) (st : St) (s : String),
      (∀ v, ∃ e, g v = Except.error e) → st.files = [] →
      (replace_md_image_urls g s b f m st).1 = s) ∧
    (∀ (g : HttpOracle) (b f m : String) (st : St) (n : Node),
      (∀ v, ∃ e, g v = Except.error e) → st.files = [] →
      (process_images g n b f m st).1 = n) ∧
    (∀ (g : HttpOracle) (b f m : String) (st : St)
        (alt pre t : List Char) (p : String),
      (pre = "http://".data ∨ pre = "https://".data) →
      t ≠ [] → (∀ c ∈ t, ¬ c = ')') →
      (∀ c ∈ alt, ¬ c = ']' ∧ ¬ c = '\n') →
      (download_image g (String.mk (pre ++ t)) b f st).1 = some p →
      (replace_md_image_urls g
          (String.mk (mdTokenText (MdToken.img alt (pre ++ t)))) b f m st).1 =
        String.mk (mdTokenText
          (MdToken.img alt (relative_to_md p m).data))) := by
  refine ⟨?_, ?_, ?_, ?_⟩
  · intro s
    rw [tokenizeMd_flatten]
  · intro g b f m st s hg hf
    have h1 := mdTokensOut_fail hg b f m (tokenizeMd s.data) st hf
    simp only [replace_md_image_urls]
    rw [h1.1, tokenizeMd_flatten]
  · intro g b f m st n hg hf
    exact (processImagesNode_fail hg b f m n st hf).1
  · intro g b f m st alt pre t p hpre hne hnp hcl hdl
    have hu : matchMdUrl ((pre ++ t) ++ [')']) = some (pre ++ t, []) := by
      rcases hpre with h | h <;> subst h
      · exact matchMdUrl_clean_http t hne hnp
      · exact matchMdUrl_clean_https t hne hnp
    have htok := tokenizeMd_img alt (pre ++ t) hcl hu
    simp only [replace_md_image_urls]
    rw [htok]
    simp only [mdTokensOut]
    rw [hdl]
    simp [mdTokenText]

/-- Witness for C9: a failing transport leaves a concrete text and a
concrete `img` tree unchanged; a successful localization of
`![a](http://x/i.png)` rewrites only the URL, keeping the alt text. -/
theorem c9_witness :
    (replace_md_image_urls (fun _ => Except.error ⟨"t"⟩)
        "x ![a](http://x/i.png) y" "https://ex.com/p" "/out/images"
        "/out/doc.md" ⟨[], []⟩).1 = "x ![a](http://x/i.png) y" ∧
    (process_images (fun _ => Except.error ⟨"t"⟩)
        (Node.elem "img" [("src", "http://x/i.png")] []) "https://ex.com/p"
        "/out/images" "/out/doc.md" ⟨[], []⟩).1 =
      Node.elem "img" [("src", "http://x/i.png")] [] ∧
    (replace_md_image_urls (fun _ => Except.ok (200, "B"))
        (String.mk (mdTokenText (MdToken.img ['a']
          ("http://".data ++ "x/i.png".data)))) "https://ex.com/p"
        "/out/images" "/out/doc.md" ⟨[], []⟩).1 =
      String.mk (mdTokenText (MdToken.img ['a']
        (relative_to_md (img_cache_path "/out/images"
          (String.mk ("http://".data ++ "x/i.png".data)))
          "/out/doc.md").data)) :=
  ⟨c9_rewriters_frame.2.1 (fun _ => Except.error ⟨"t"⟩) "https://ex.com/p"
      "/out/images" "/out/doc.md" ⟨[], []⟩ "x ![a](http://x/i.png) y"
      (fun _ => ⟨⟨"t"⟩, rfl⟩) rfl,
    c9_rewriters_frame.2.2.1 (fun _ => Except.error ⟨"t"⟩) "https://ex.com/p"
      "/out/images" "/out/doc.md" ⟨[], []⟩
      (Node.elem "img" [("src", "http://x/i.png")] [])
      (fun _ => ⟨⟨"t"⟩, rfl⟩) rfl,
    c9_rewriters_frame.2.2.2 (fun _ => Except.ok (200, "B"))
      "https://ex.com/p" "/out/images" "/out/doc.md" ⟨[], []⟩ ['a']
      "http://".data "x/i.png".data
      (img_cache_path "/out/images"
        (String.mk ("http://".data ++ "x/i.png".data)))
      (Or.inl rfl) (by decide) (by decide) (by decide)
      (by rw [download_image_cold (fun _ => Except.ok (200, "B"))
        (String.mk ("http://".data ++ "x/i.png".data)) "https://ex.com/p"
        "/out/images" ⟨[], []⟩ "B" (Or.inl (by decide)) (by decide) rfl
        (by simp)])⟩

end Crawler
